import Mathlib

/-!
Verification of the `combine` fighting-game prototype (src/main.rs, src/body.rs,
src/ui.rs) against its natural-language specification.

Modelling conventions, used throughout:
* `f32` arithmetic is embedded exactly over `ℚ`; decimal literals of the source
  become the corresponding rationals.
* `f32::INFINITY` occurs only as the seed of the speed fold (`stats.speed =
  f32::INFINITY` followed by `max_speed.min(speed)`), so `Stats.speed` is
  modelled as `Option ℚ` with `none` standing for `+∞`; `minInf` mirrors
  `f32::min` against that seed.
* transcendental helpers (`sin`, `x ↦ sin (x * π)`, `sqrt`, `powf 0.3`) are
  passed as abstract function parameters; no claim depends on their values.
* random draws (`rng.gen_range`, `choose`, `gen_bool`) become explicit
  parameters; the range postcondition of `gen_range` becomes a hypothesis.
* panicking paths (`todo!()`, failed `unwrap`) are modelled by `Option`
  results, `none` standing for an aborted tick.
-/

namespace Combine

/-- Material catalog (body.rs `enum Material`): eight named substances, the
last one (`Rust`) reserved for the fixed default body. -/
inductive Material where
  | Wood
  | Stone
  | Plastic
  | Bronze
  | Aluminum
  | Steel
  | Carbon
  | Rust
  deriving DecidableEq

/-- Base health of a material (body.rs `Material::base_hp`). -/
def Material.base_hp : Material → ℚ
  | .Wood => 10
  | .Stone => 13
  | .Plastic => 5
  | .Bronze => 24
  | .Aluminum => 22
  | .Steel => 30
  | .Carbon => 30
  | .Rust => 10

/-- Base energy of a material (body.rs `Material::base_energy`). -/
def Material.base_energy : Material → ℚ
  | .Wood => -10
  | .Stone => -15
  | .Plastic => 0
  | .Bronze => 10
  | .Aluminum => 2
  | .Steel => 2
  | .Carbon => -1
  | .Rust => 0

/-- Density of a material (body.rs `Material::density`). -/
def Material.density : Material → ℚ
  | .Wood => 100
  | .Stone => 350
  | .Plastic => 30
  | .Bronze => 100
  | .Aluminum => 60
  | .Steel => 70
  | .Carbon => 25
  | .Rust => 70

/-- Display color of a material (body.rs `Material::color`, `Color::rgb_u8`
converts each byte channel to a float in `[0,1]` by dividing by 255). -/
def Material.color : Material → ℚ × ℚ × ℚ
  | .Wood => (202/255, 164/255, 114/255)
  | .Stone => (136/255, 140/255, 141/255)
  | .Plastic => (228/255, 200/255, 98/255)
  | .Bronze => (205/255, 127/255, 50/255)
  | .Aluminum => (208/255, 213/255, 219/255)
  | .Steel => (122/255, 127/255, 128/255)
  | .Carbon => (13/255, 17/255, 21/255)
  | .Rust => (183/255, 65/255, 14/255)

/-- Limb reference tag (body.rs `enum Limb`); the `u8` index is embedded in
`ℕ`. -/
inductive Limb where
  | Arm (i : ℕ)
  | Leg (i : ℕ)
  deriving DecidableEq

/-- Limb-bound ability (body.rs `struct Ability<T>`); only `Ability<f32>` is
ever instantiated, so the payload `meta` is a `ℚ`. -/
structure Ability where
  meta : ℚ
  time : ℚ
  cooldown : ℚ
  energy_cost : ℚ
  limb : Limb
  name : String
  deriving DecidableEq

/-- Skill variants (body.rs `enum Skill`). -/
inductive Skill where
  | WalkBackward
  | WalkForward
  | TurnAround
  | BasicMelee (a : Ability)
  | BasicRanged (a : Ability)
  | Scan (a : Ability)
  deriving DecidableEq

/-- Category order used for sorting (body.rs `Skill::order`). -/
def Skill.order : Skill → ℕ
  | .WalkBackward => 0
  | .WalkForward => 1
  | .TurnAround => 2
  | .BasicMelee _ => 3
  | .BasicRanged _ => 3
  | .Scan _ => 4

/-- The hand-written `PartialEq for Ability<T>` (body.rs): it returns `false`
unconditionally, even on structurally identical values. -/
def abilityEq (_a _b : Ability) : Bool := false

/-- The derived `PartialEq for Skill` (body.rs `#[derive(PartialEq)]`):
unit variants compare by tag, payload variants defer to `abilityEq`. -/
def skillEq : Skill → Skill → Bool
  | .WalkBackward, .WalkBackward => true
  | .WalkForward, .WalkForward => true
  | .TurnAround, .TurnAround => true
  | .BasicMelee a, .BasicMelee b => abilityEq a b
  | .BasicRanged a, .BasicRanged b => abilityEq a b
  | .Scan a, .Scan b => abilityEq a b
  | _, _ => false

/-- Whether a skill carries an ability payload (melee, ranged, scan). -/
def Skill.hasAbility : Skill → Bool
  | .BasicMelee _ => true
  | .BasicRanged _ => true
  | .Scan _ => true
  | _ => false

/-- Per-part stats record (body.rs `struct PartStats`). -/
structure PartStats where
  skills : List Skill
  material : Material
  weight : ℚ
  health : ℚ
  energy : ℚ
  size : ℚ
  color : ℚ × ℚ × ℚ

/-- Head metadata (body.rs `struct HeadMeta`). -/
structure HeadMeta where
  refresh_rate : ℚ
  close_vision : ℚ
  far_vision : ℚ

/-- Leg metadata (body.rs `struct LegMeta`). -/
structure LegMeta where
  max_speed : ℚ
  jump_force : ℚ

/-- Torso metadata (body.rs `struct TorsoMeta`). -/
structure TorsoMeta where
  arm_slots : ℕ
  leg_slots : ℕ

/-- Generic part container (body.rs `struct BodyPart<M>`). -/
structure BodyPart (M : Type) where
  name : String
  stats : PartStats
  meta : M

/-- A whole body (body.rs `struct Body`): one torso, one head, arm and leg
sequences. -/
structure Body where
  torso : BodyPart TorsoMeta
  head : BodyPart HeadMeta
  arms : List (BodyPart Unit)
  legs : List (BodyPart LegMeta)

/-- Derived performance profile (body.rs `struct Stats`); `speed : Option ℚ`
models an `f32` that update_body_system seeds with `f32::INFINITY` (`none`). -/
structure Stats where
  health : ℚ
  energy : ℚ
  max_health : ℚ
  max_energy : ℚ
  weight : ℚ
  width : ℚ
  speed : Option ℚ
  reaction_time : ℚ
  close_accuracy : ℚ
  far_accuracy : ℚ
  jump_force : ℚ
  skills : List Skill

/-- The derived `Stats::default()` (all floats `0.0`, empty skill vector). -/
def statsDefault : Stats :=
  { health := 0, energy := 0, max_health := 0, max_energy := 0, weight := 0
    width := 0, speed := some 0, reaction_time := 0, close_accuracy := 0
    far_accuracy := 0, jump_force := 0, skills := [] }

/-- Stats::add_part_stats (body.rs): every part contributes health, energy,
weight and its skill list. -/
def addPartStats (s : Stats) (p : PartStats) : Stats :=
  { s with
    max_health := s.max_health + p.health
    max_energy := s.max_energy + p.energy
    weight := s.weight + p.weight
    skills := s.skills ++ p.skills }

/-- Minimum of an `f32` against a value whose seed may be `f32::INFINITY`
(`none`); mirrors `self.max_speed.min(stats.speed)`. -/
def minInf (x : ℚ) : Option ℚ → Option ℚ
  | none => some x
  | some y => some (min x y)

/-- HeadMeta::add_to_stats (body.rs). -/
def addHeadMeta (m : HeadMeta) (s : Stats) : Stats :=
  { s with
    close_accuracy := max m.close_vision s.close_accuracy
    far_accuracy := max m.far_vision s.far_accuracy
    reaction_time := min m.refresh_rate s.reaction_time }

/-- LegMeta::add_to_stats (body.rs). -/
def addLegMeta (m : LegMeta) (s : Stats) : Stats :=
  { s with
    speed := minInf m.max_speed s.speed
    jump_force := s.jump_force + m.jump_force }

/-- BodyPart::add_to_stats for a torso: TorsoMeta contributes nothing beyond
the base part stats. -/
def addTorsoPart (p : BodyPart TorsoMeta) (s : Stats) : Stats :=
  addPartStats s p.stats

/-- BodyPart::add_to_stats for a head. -/
def addHeadPart (p : BodyPart HeadMeta) (s : Stats) : Stats :=
  addHeadMeta p.meta (addPartStats s p.stats)

/-- BodyPart::add_to_stats for a leg. -/
def addLegPart (p : BodyPart LegMeta) (s : Stats) : Stats :=
  addLegMeta p.meta (addPartStats s p.stats)

/-- BodyPart::add_to_stats for an arm: the unit metadata contributes nothing. -/
def addArmPart (p : BodyPart Unit) (s : Stats) : Stats :=
  addPartStats s p.stats

/-- Comparison used to model `sort_by_key(|skill| skill.order())`. -/
def skillLe (a b : Skill) : Prop := a.order ≤ b.order

instance : DecidableRel skillLe :=
  fun a b => inferInstanceAs (Decidable (a.order ≤ b.order))

instance : IsTotal Skill skillLe := ⟨fun a b => Nat.le_total a.order b.order⟩

instance : IsTrans Skill skillLe := ⟨fun _ _ _ h h' => Nat.le_trans h h'⟩

/-- Stable sort by the category key, modelling `Vec::sort_by_key` (which is a
stable sort; insertion sort inserting before the first `≥` element is stable
too, so the outputs agree elementwise). -/
def sortSkills (l : List Skill) : List Skill :=
  List.insertionSort skillLe l

/-- Tail worker for `dedupSkills`: `prev` is the last element kept; mirrors
`Vec::dedup`, which drops an element equal (per `skillEq`) to the last kept
one. -/
def dedupAfter (prev : Skill) : List Skill → List Skill
  | [] => []
  | b :: l => if skillEq b prev then dedupAfter prev l else b :: dedupAfter b l

/-- Model of `Vec::dedup` under the `skillEq` comparison: removes consecutive
equal elements, keeping the first of each run. -/
def dedupSkills : List Skill → List Skill
  | [] => []
  | a :: l => a :: dedupAfter a l

/-- Post-fold normalisation of the skill list (body.rs `update_body_system`):
`skills.sort_by_key(|skill| skill.order()); skills.dedup();`. -/
def aggregateSkills (l : List Skill) : List Skill :=
  dedupSkills (sortSkills l)

/-- Initial accumulator of the stats fold (body.rs `update_body_system`):
`Stats::default()` except `speed = f32::INFINITY` and `max_energy = 100.0`. -/
def initStats : Stats :=
  { statsDefault with speed := none, max_energy := 100 }

/-- The full stats aggregation of body.rs `update_body_system`: fold torso,
head, every leg, every arm; sort and dedup the skills; set the width from the
torso scale (`Vec3::new(0.3, 1.0, 1.0) * size`); finally reset health and
energy to the fresh maxima. -/
def computeStats (b : Body) : Stats :=
  let s := addTorsoPart b.torso initStats
  let s := addHeadPart b.head s
  let s := b.legs.foldl (fun s leg => addLegPart leg s) s
  let s := b.arms.foldl (fun s arm => addArmPart arm s) s
  let s := { s with skills := aggregateSkills s.skills }
  let s := { s with width := 3/10 * b.torso.stats.size }
  { s with health := s.max_health, energy := s.max_energy }

/-- The fixed default arm's "Jab" ability (body.rs `impl Default for Body`). -/
def jab (index : ℕ) : Ability :=
  { meta := 5, time := 1, cooldown := 1/5, energy_cost := 3
    limb := .Arm index, name := "Jab" }

/-- Default arm (body.rs `impl Default for Body`, `create_arm`). -/
def defaultArm (index : ℕ) : BodyPart Unit :=
  { name := "Typical Rusty Arm - V0"
    stats :=
      { skills := [.BasicMelee (jab index)], material := .Rust, weight := 16
        health := 1, energy := -2, size := 1, color := Material.Rust.color }
    meta := () }

/-- Default leg (body.rs `impl Default for Body`). -/
def defaultLeg : BodyPart LegMeta :=
  { name := "Normal Rusty Leg - V0"
    stats :=
      { skills := [.WalkForward, .WalkBackward], material := .Rust, weight := 26
        health := 5, energy := -2, size := 1, color := Material.Rust.color }
    meta := { max_speed := 5, jump_force := 15 } }

/-- The fixed `Body::default()` (body.rs `impl Default for Body`). -/
def defaultBody : Body :=
  { torso :=
      { name := "Basic Rusty Torso - V0"
        stats :=
          { skills := [], material := .Rust, weight := 50, health := 10
            energy := -12, size := 1, color := Material.Rust.color }
        meta := { arm_slots := 2, leg_slots := 2 } }
    head :=
      { name := "Ordinary Rusty Head - V0"
        stats :=
          { skills := [], material := .Rust, weight := 12, health := 2
            energy := -4, size := 1, color := Material.Rust.color }
        meta := { refresh_rate := 1, far_vision := 1, close_vision := 1 } }
    arms := [defaultArm 0, defaultArm 1]
    legs := [defaultLeg, defaultLeg] }

/-! ### Animation / skill-execution engine (main.rs `do_animation`,
`use_skill_system`) -/

/-- Rust `f32::signum` over the exact model: `1` for positive (`+0.0`
included), `-1` for negative. -/
def rsgn (x : ℚ) : ℚ := if x < 0 then -1 else 1

/-- One TurnAround tick on the facing value (main.rs `do_animation`,
`Skill::TurnAround` arm): for `progress ≤ 0.5` the facing is scaled by
`1 - progress * 2` and offset by `-signum * 0.0001`; afterwards it is blended
toward `signum`. -/
def turnStep (direction progress : ℚ) : ℚ :=
  if progress ≤ 1/2 then
    direction * (1 - progress * 2) - rsgn direction * (1/10000)
  else
    direction * (1 - (progress * 2 - 1)) + (progress * 2 - 1) * rsgn direction

/-- Facing value after a sequence of TurnAround ticks at the given progress
values. -/
def turnRun (d : ℚ) (ps : List ℚ) : ℚ := ps.foldl turnStep d

/-- The per-actor kinematic state the animation step writes: horizontal
position plus one pose angle per leg and arm index (a `Transform.rotation`
around z is modelled by its angle). -/
structure ActorPose where
  position : ℚ
  legPose : ℕ → ℚ
  armPose : ℕ → ℚ

/-- All-zero pose, used for concrete evaluations. -/
def pose0 : ActorPose := ⟨0, fun _ => 0, fun _ => 0⟩

/-- Leg sign `(i % 2) as f32 * 2.0 - 1.0` of main.rs `walk` (even index `-1`,
odd index `+1`); arms use its negation. -/
def legSign (i : ℕ) : ℚ := (i % 2 : ℕ) * 2 - 1

/-- Normalised position inside the final wind-down window of `walk`
(main.rs): `(progress - 1.0 + END_TIME) / END_TIME` with `END_TIME = 0.1`. -/
def endWindowT (progress : ℚ) : ℚ := (progress - 1 + 1/10) / (1/10)

/-- One `walk` tick (main.rs `fn walk` inside `do_animation`), parameterised
over the abstract sine: integrates the position and rewrites every limb pose,
either to the sine gait (progress below `1.0 - END_TIME`) or linearly toward
the neutral pose inside the final window. -/
def walk (sin : ℚ → ℚ) (mul dt speed direction progress : ℚ)
    (s : ActorPose) : ActorPose :=
  if progress < 1 - 1/10 then
    { position := s.position + dt * speed * direction * mul
      legPose := fun i => sin (legSign i * (speed * progress * mul))
      armPose := fun i => sin (-legSign i * (speed * progress * mul)) }
  else
    { position := s.position + dt * speed * direction * mul
      legPose := fun i => s.legPose i * (1 - endWindowT progress)
      armPose := fun i => s.armPose i * (1 - endWindowT progress) }

/-- Write one limb's pose angle (main.rs `BodyTransforms::get_mut` target of
the melee arm). -/
def setLimbPose (s : ActorPose) : Limb → ℚ → ActorPose
  | .Arm i, a => { s with armPose := fun j => if j = i then a else s.armPose j }
  | .Leg i, a => { s with legPose := fun j => if j = i then a else s.legPose j }

/-- The per-skill kinematics dispatch of main.rs `do_animation` (the `match`
on `stats.skills[animation.skill]`).  `sinpi` abstracts `x ↦ sin (x * π)`
used by the melee arm.  Result: new pose state and new facing, or `none` for
the `todo!()` aborts on `BasicRanged` and `Scan`. -/
def animSkillStep (sin sinpi : ℚ → ℚ) (dt speed : ℚ) (skill : Skill)
    (direction progress : ℚ) (s : ActorPose) : Option (ActorPose × ℚ) :=
  match skill with
  | .WalkBackward => some (walk sin (-(1/2)) dt speed direction progress s, direction)
  | .WalkForward => some (walk sin 1 dt speed direction progress s, direction)
  | .TurnAround => some (s, turnStep direction progress)
  | .BasicMelee a => some (setLimbPose s a.limb (sinpi progress), direction)
  | .BasicRanged _ => none
  | .Scan _ => none

/-- Whether `do_animation` implements a skill variant (everything except the
`todo!()` arms). -/
def isHandled : Skill → Bool
  | .BasicRanged _ => false
  | .Scan _ => false
  | _ => true

/-- Post-step non-overlap resolution (main.rs `do_animation`, the block after
the skill match): clamp the integrated `position` against the opponent with a
`0.1` margin beyond the mean width, on the side given by the pre-step
ordering. -/
def resolveOverlap (oldX pos enemyX w1 w2 : ℚ) : ℚ :=
  if oldX < enemyX then
    min pos (enemyX - (w1 + w2) / 2 - 1/10)
  else
    max pos (enemyX + (w1 + w2) / 2 + 1/10)

/-- Button image lookup of ui.rs `update_ui_system`; the `todo!()` arms for
`BasicRanged` and `Scan` are `none`. -/
def skillImage : Skill → Option String
  | .WalkBackward => some "textures/arrow_left.png"
  | .WalkForward => some "textures/arrow_right.png"
  | .TurnAround => some "textures/round_arrow.png"
  | .BasicMelee _ => some "textures/fist.png"
  | .BasicRanged _ => none
  | .Scan _ => none

/-- `ANIMATION_SPEED` (main.rs). -/
def animationSpeed : ℚ := 1

/-- Control state of `use_skill_system` (main.rs): the `Local<Option
<Animation>>` (skill index and progress) paired with the `UseSkill` resource
(the external selection slot). -/
abbrev MachineState : Type := Option (ℕ × ℚ) × Option ℕ

/-- One tick of main.rs `use_skill_system`, restricted to its control flow:
while Active, `do_animation` runs (aborting on an out-of-range index or an
unimplemented variant) and adds `dt * ANIMATION_SPEED` to the progress, and
if the new progress exceeds `1.0` both the animation and the selection are
cleared in that same tick; while Idle, a pending selection starts an
animation at progress `0`. -/
def useSkillStep (skills : List Skill) (dt : ℚ) : MachineState → Option MachineState
  | (some (k, p), sel) =>
    match skills.get? k with
    | some sk =>
      if isHandled sk then
        if p + dt * animationSpeed > 1 then some (none, none)
        else some (some (k, p + dt * animationSpeed), sel)
      else none
    | none => none
  | (none, some k) => some (some (k, 0), some k)
  | (none, none) => some (none, none)

/-- Iterated `use_skill_system` ticks, propagating an abort. -/
def useSkillIter (skills : List Skill) (dt : ℚ) : ℕ → MachineState → Option MachineState
  | 0, s => some s
  | n + 1, s =>
    match useSkillStep skills dt s with
    | some s2 => useSkillIter skills dt n s2
    | none => none

/-! ### Procedural generator (body.rs) -/

/-- The seven randomizable materials (body.rs `Material::ALL`); `Rust` is not
listed. -/
def materialALL : List Material :=
  [.Wood, .Stone, .Plastic, .Bronze, .Aluminum, .Steel, .Carbon]

/-- Material::choose (body.rs): a uniform draw is some index into `ALL`. -/
def materialChoose (i : Fin 7) : Material :=
  materialALL.get (Fin.cast (by rfl) i)

/-- Rust `f32::clamp(0.0, 1.0)`. -/
def clamp01 (x : ℚ) : ℚ := min (max x 0) 1

/-- randomize_color (body.rs) with the three channel perturbations passed as
explicit draws. -/
def randomizeColor (c : ℚ × ℚ × ℚ) (d1 d2 d3 : ℚ) : ℚ × ℚ × ℚ :=
  (clamp01 (c.1 + d1), clamp01 (c.2.1 + d2), clamp01 (c.2.2 + d3))

/-- randomize_part (body.rs) with every random draw passed explicitly:
`sizeDraw ~ gen_range(0.5..=2.0)`, `matIdx` the material draw, `densityDraw ~
gen_range(density_range)`, `hpDraw`/`energyDraw` the two shaped
`gen_range(0.2..=5.0).powf(0.3)` results are obtained through the abstract
`pow03`, and `sqrtQ` abstracts `f32::sqrt`. -/
def randomizePart (pow03 sqrtQ : ℚ → ℚ) (skills : List Skill)
    (hpMul energyMul : ℚ) (sizeDraw : ℚ) (matIdx : Fin 7)
    (densityDraw hpDraw energyDraw d1 d2 d3 : ℚ) : PartStats :=
  { skills := skills
    material := materialChoose matIdx
    weight := sizeDraw * (Material.density (materialChoose matIdx) * densityDraw)
    health := Material.base_hp (materialChoose matIdx) * pow03 hpDraw
      * sqrtQ sizeDraw * hpMul
    energy := Material.base_energy (materialChoose matIdx) * pow03 energyDraw
      * sqrtQ sizeDraw * energyMul
    size := sizeDraw
    color := randomizeColor (Material.color (materialChoose matIdx)) d1 d2 d3 }

/-- Skill list of random_leg (body.rs): always `WalkForward` and
`TurnAround`, plus `WalkBackward` when the `gen_bool(0.95)` draw succeeds. -/
def randomLegSkills (walkBackDraw : Bool) : List Skill :=
  [.WalkForward, .TurnAround] ++ (if walkBackDraw then [.WalkBackward] else [])

/-! ### Helper lemmas about the skill-list normalisation -/

/-- Number of ability-bearing entries in a skill list. -/
def countAbility (l : List Skill) : ℕ := l.countP (fun s => s.hasAbility)

theorem dedupAfter_sublist :
    ∀ (l : List Skill) (prev), List.Sublist (dedupAfter prev l) l := by
  intro l
  induction l with
  | nil => intro _; simp [dedupAfter]
  | cons b l ih =>
    intro prev
    simp only [dedupAfter]
    split
    · exact (ih prev).trans (List.sublist_cons_self b l)
    · exact List.Sublist.cons₂ b (ih b)

theorem dedupSkills_sublist (l : List Skill) : List.Sublist (dedupSkills l) l := by
  cases l with
  | nil => simp [dedupSkills]
  | cons a l => exact List.Sublist.cons₂ a (dedupAfter_sublist l a)

theorem dedupAfter_chain :
    ∀ (l : List Skill) (prev),
      List.Chain' (fun a b => skillEq b a = false) (prev :: dedupAfter prev l) := by
  intro l
  induction l with
  | nil => intro _; simp [dedupAfter]
  | cons b l ih =>
    intro prev
    simp only [dedupAfter]
    split
    · exact ih prev
    · rw [List.chain'_cons]
      exact ⟨by simp_all, ih b⟩

theorem dedupSkills_chain (l : List Skill) :
    List.Chain' (fun a b => skillEq b a = false) (dedupSkills l) := by
  cases l with
  | nil => simp [dedupSkills]
  | cons a l => exact dedupAfter_chain l a

theorem skillEq_not_ability {a b : Skill} (h : skillEq b a = true) :
    a.hasAbility = false ∧ b.hasAbility = false := by
  cases a <;> cases b <;> simp_all [skillEq, abilityEq, Skill.hasAbility]

theorem dedupAfter_countAbility :
    ∀ (l : List Skill) (prev),
      (dedupAfter prev l).countP (fun s => s.hasAbility)
        = l.countP (fun s => s.hasAbility) := by
  intro l
  induction l with
  | nil => intro _; rfl
  | cons b l ih =>
    intro prev
    simp only [dedupAfter]
    split
    · rename_i h
      have hb := (skillEq_not_ability h).2
      simp [List.countP_cons, hb, ih prev]
    · simp only [List.countP_cons, ih b]

theorem dedupSkills_countAbility (l : List Skill) :
    countAbility (dedupSkills l) = countAbility l := by
  cases l with
  | nil => rfl
  | cons a l =>
    show countAbility (a :: dedupAfter a l) = countAbility (a :: l)
    simp only [countAbility, List.countP_cons, dedupAfter_countAbility l a]

theorem sortSkills_countAbility (l : List Skill) :
    countAbility (sortSkills l) = countAbility l :=
  (List.perm_insertionSort skillLe l).countP_eq _

/-! ### Helper lemmas about TurnAround -/

theorem turnStep_shrink (d p : ℚ) (hp : p ≤ 1/2) :
    turnStep d p = d * (1 - 2 * p) - rsgn d * (1/10000) := by
  rw [turnStep, if_pos hp]
  ring

theorem turnStep_grow (d p : ℚ) (hp : ¬ p ≤ 1/2) :
    turnStep d p = d * (2 - 2 * p) + (2 * p - 1) * rsgn d := by
  rw [turnStep, if_neg hp]
  ring

theorem rsgn_pos {x : ℚ} (h : 0 < x) : rsgn x = 1 := if_neg (not_lt.mpr h.le)

theorem rsgn_neg {x : ℚ} (h : x < 0) : rsgn x = -1 := if_pos h

theorem turnStep_grow_pos {e q : ℚ} (he : 0 < e) (hq : 1/2 < q) (hq1 : q ≤ 1) :
    0 < turnStep e q := by
  rw [turnStep_grow e q (not_le.mpr hq), rsgn_pos he]
  have h1 : 0 ≤ e * (2 - 2 * q) := mul_nonneg he.le (by linarith)
  linarith

theorem turnStep_grow_neg {e q : ℚ} (he : e < 0) (hq : 1/2 < q) (hq1 : q ≤ 1) :
    turnStep e q < 0 := by
  rw [turnStep_grow e q (not_le.mpr hq), rsgn_neg he]
  have h1 : e * (2 - 2 * q) ≤ 0 := mul_nonpos_of_nonpos_of_nonneg he.le (by linarith)
  linarith

theorem turnRun_pos :
    ∀ (qs : List ℚ) (e : ℚ), 0 < e → (∀ q ∈ qs, 1/2 < q ∧ q ≤ 1) →
      0 < turnRun e qs := by
  intro qs
  induction qs with
  | nil => intro e he _; exact he
  | cons q qs ih =>
    intro e he hq
    have h1 := hq q (List.mem_cons_self q qs)
    exact ih _ (turnStep_grow_pos he h1.1 h1.2)
      (fun r hr => hq r (List.mem_cons_of_mem q hr))

theorem turnRun_neg :
    ∀ (qs : List ℚ) (e : ℚ), e < 0 → (∀ q ∈ qs, 1/2 < q ∧ q ≤ 1) →
      turnRun e qs < 0 := by
  intro qs
  induction qs with
  | nil => intro e he _; exact he
  | cons q qs ih =>
    intro e he hq
    have h1 := hq q (List.mem_cons_self q qs)
    exact ih _ (turnStep_grow_neg he h1.1 h1.2)
      (fun r hr => hq r (List.mem_cons_of_mem q hr))

/-! ### Theorems -/

/-- C1, counterexample: the claim that during the shrink phase
(`progress ≤ 0.5`) the epsilon keeps the facing's sign unflipped and the
facing nonzero is false on the code: at `direction = 1, progress = 0.5` the
tick yields `-0.0001` (sign flipped inside the shrink phase), and at
`direction = 0.0001, progress = 0` the tick yields exactly `0`. -/
theorem turnAround_claim_false :
    (¬ ∀ d p : ℚ, d ≠ 0 → 0 ≤ p → p ≤ 1/2 → rsgn (turnStep d p) = rsgn d)
    ∧ turnStep (1/10000) 0 = 0 := by
  constructor
  · intro h
    have h1 := h 1 (1/2) one_ne_zero (by norm_num) le_rfl
    rw [turnStep_shrink 1 (1/2) le_rfl] at h1
    norm_num [rsgn] at h1
  · rw [turnStep_shrink (1/10000) 0 (by norm_num)]
    norm_num [rsgn]

/-- C1, amended: on a shrink-phase tick (`progress ≤ 0.5`) the facing becomes
`facing * (1 - 2·progress) - sign(facing) * 0.0001` — the magnitude scale
shrinks toward zero while the epsilon is offset against (not toward) the
original sign, so the sign flips once the scaled magnitude drops below the
epsilon, and a tick at progress `0.5` lands exactly on `-sign * 0.0001`; on a
grow-phase tick (`0.5 < progress ≤ 1`) the facing moves toward `sign(facing)`
keeping its current sign, reaching exactly `sign(facing)` at progress `1`;
hence a run that ticks at progress `0.5` and then only at grow-phase
progresses ends with the orientation reversed exactly once. -/
theorem turnAround_step (d : ℚ) (hd : d ≠ 0) :
    (∀ p, 0 ≤ p → p ≤ 1/2 → turnStep d p = d * (1 - 2 * p) - rsgn d * (1/10000))
    ∧ (∀ p, 0 ≤ p → p ≤ 1/2 → |d * (1 - 2 * p)| < 1/10000 →
        rsgn (turnStep d p) = -rsgn d)
    ∧ turnStep d (1/2) = -(rsgn d) * (1/10000)
    ∧ (∀ qs : List ℚ, (∀ q ∈ qs, 1/2 < q ∧ q ≤ 1) →
        rsgn (turnRun (turnStep d (1/2)) qs) = -rsgn d)
    ∧ (∀ e : ℚ, turnStep e 1 = rsgn e) := by
  have hmid : turnStep d (1/2) = -(rsgn d) * (1/10000) := by
    rw [turnStep_shrink d (1/2) le_rfl]
    ring
  refine ⟨fun p _ hp => turnStep_shrink d p hp, ?_, hmid, ?_, ?_⟩
  · intro p hp0 hp habs
    rw [turnStep_shrink d p hp]
    rcases lt_or_gt_of_ne hd with hneg | hpos
    · rw [rsgn_neg hneg, rsgn_pos (by linarith [(abs_lt.mp habs).1] :
        (0:ℚ) < d * (1 - 2 * p) - (-1) * (1/10000))]
      norm_num
    · rw [rsgn_pos hpos, rsgn_neg (by linarith [(abs_lt.mp habs).2] :
        d * (1 - 2 * p) - 1 * (1/10000) < (0:ℚ))]
  · intro qs hqs
    rcases lt_or_gt_of_ne hd with hneg | hpos
    · have he : 0 < turnStep d (1/2) := by
        rw [hmid, rsgn_neg hneg]
        norm_num
      rw [rsgn_pos (turnRun_pos qs _ he hqs), rsgn_neg hneg]
      norm_num
    · have he : turnStep d (1/2) < 0 := by
        rw [hmid, rsgn_pos hpos]
        norm_num
      rw [rsgn_neg (turnRun_neg qs _ he hqs), rsgn_pos hpos]
  · intro e
    rw [turnStep_grow e 1 (by norm_num)]
    ring

/-- C1, witness: the amended theorem applied at `direction = 1` with the grow
phase ticked at `3/4` and `1`. -/
theorem turnAround_step_witness :
    ((1 : ℚ) ≠ 0) ∧ rsgn (turnRun (turnStep 1 (1/2)) [3/4, 1]) = -rsgn 1 :=
  ⟨one_ne_zero, (turnAround_step 1 one_ne_zero).2.2.2.1 [3/4, 1] (by
    intro q hq
    fin_cases hq <;> norm_num)⟩

/-- C4: after aggregation the skill list is sorted by the fixed category
order (`WalkBackward = 0, WalkForward = 1, TurnAround = 2, Melee/Ranged = 3,
Scan = 4`) and consecutive `skillEq`-equal duplicates are removed; ability
equality always returns `false`, so ability-bearing entries are never merged
(their count is preserved), and the sample list with `WalkForward` twice plus
two structurally identical `BasicMelee` abilities keeps exactly one
`WalkForward` and both melee entries. -/
theorem skills_sort_dedup :
    (Skill.order .WalkBackward = 0 ∧ Skill.order .WalkForward = 1
      ∧ Skill.order .TurnAround = 2
      ∧ ∀ a, Skill.order (.BasicMelee a) = 3 ∧ Skill.order (.BasicRanged a) = 3
          ∧ Skill.order (.Scan a) = 4)
    ∧ (∀ l, List.Sorted skillLe (aggregateSkills l))
    ∧ (∀ l, List.Chain' (fun a b => skillEq b a = false) (aggregateSkills l))
    ∧ (∀ a b, abilityEq a b = false)
    ∧ (∀ l, countAbility (aggregateSkills l) = countAbility l)
    ∧ aggregateSkills
        [Skill.WalkForward, Skill.BasicMelee (jab 0),
          Skill.WalkForward, Skill.BasicMelee (jab 0)]
      = [Skill.WalkForward, Skill.BasicMelee (jab 0), Skill.BasicMelee (jab 0)] := by
  refine ⟨⟨rfl, rfl, rfl, fun a => ⟨rfl, rfl, rfl⟩⟩, ?_, ?_, fun a b => rfl, ?_, rfl⟩
  · intro l
    exact (List.sorted_insertionSort skillLe l).sublist
      (dedupSkills_sublist (sortSkills l))
  · intro l
    exact dedupSkills_chain (sortSkills l)
  · intro l
    rw [aggregateSkills, dedupSkills_countAbility]
    exact sortSkills_countAbility l

/-- C2: after every animation step, in both relative orderings, the post-step
gap to the opponent is at least `(w1 + w2)/2 + 0.1`; the clamp never lets the
actor cross to the opponent's side and leaves any position away from the
opponent untouched; the position a `walk` step integrates is `old + dt *
speed * facing * mul`, and when a WalkForward integration would overlap, the
clamped post-step gap is exactly `(w1 + w2)/2 + 0.1`. -/
theorem overlap_clamp (oldX pos enemyX w1 w2 : ℚ) (hw1 : 0 ≤ w1) (hw2 : 0 ≤ w2) :
    (oldX < enemyX →
      (w1 + w2) / 2 + 1/10 ≤ enemyX - resolveOverlap oldX pos enemyX w1 w2
      ∧ resolveOverlap oldX pos enemyX w1 w2 < enemyX
      ∧ (pos ≤ enemyX - (w1 + w2) / 2 - 1/10 →
          resolveOverlap oldX pos enemyX w1 w2 = pos))
    ∧ (¬ oldX < enemyX →
      (w1 + w2) / 2 + 1/10 ≤ resolveOverlap oldX pos enemyX w1 w2 - enemyX
      ∧ enemyX < resolveOverlap oldX pos enemyX w1 w2
      ∧ (enemyX + (w1 + w2) / 2 + 1/10 ≤ pos →
          resolveOverlap oldX pos enemyX w1 w2 = pos))
    ∧ (∀ (sin : ℚ → ℚ) dt speed direction progress s,
        (walk sin 1 dt speed direction progress s).position
          = s.position + dt * speed * direction * 1)
    ∧ (oldX < enemyX → enemyX - pos < (w1 + w2) / 2 + 1/10 →
        enemyX - resolveOverlap oldX pos enemyX w1 w2 = (w1 + w2) / 2 + 1/10) := by
  refine ⟨?_, ?_, ?_, ?_⟩
  · intro h
    rw [resolveOverlap, if_pos h]
    have hm := min_le_right pos (enemyX - (w1 + w2) / 2 - 1/10)
    exact ⟨by linarith, by linarith, fun hpos => min_eq_left hpos⟩
  · intro h
    rw [resolveOverlap, if_neg h]
    have hm := le_max_right pos (enemyX + (w1 + w2) / 2 + 1/10)
    exact ⟨by linarith, by linarith, fun hpos => max_eq_left hpos⟩
  · intro sin dt speed direction progress s
    unfold walk
    split <;> rfl
  · intro h hnaive
    rw [resolveOverlap, if_pos h, min_eq_right (by linarith)]
    ring

/-- C2, witness: `overlap_clamp` at `oldX = -4, pos = 5, enemyX = 4` with
both widths `0.3` — the naive WalkForward result `5` would overlap, and the
clamped gap is exactly `0.4`. -/
theorem overlap_clamp_witness :
    ((0:ℚ) ≤ 3/10) ∧ ((-4:ℚ) < 4) ∧ ((4:ℚ) - 5 < (3/10 + 3/10) / 2 + 1/10)
    ∧ 4 - resolveOverlap (-4) 5 4 (3/10) (3/10) = ((3:ℚ)/10 + 3/10) / 2 + 1/10 :=
  ⟨by norm_num, by norm_num, by norm_num,
    (overlap_clamp (-4) 5 4 (3/10) (3/10) (by norm_num) (by norm_num)).2.2.2
      (by norm_num) (by norm_num)⟩

/-- C6: a walk tick adds `dt * speed * facing * mul` to the position
(WalkForward dispatches `mul = 1`, WalkBackward `mul = -1/2`); while
`progress < 0.9` each leg pose is `sin(±(speed * progress * mul))` with the
sign alternating by index parity and each arm uses the opposite sign; for
`progress ∈ [0.9, 1)` every limb pose is scaled by `1 - t` where
`t = (progress - 0.9)/0.1` runs linearly from `0` to `1` across the final
window. -/
theorem walk_kinematics (sin : ℚ → ℚ) (mul dt speed direction progress : ℚ)
    (s : ActorPose) (i : ℕ) :
    (walk sin mul dt speed direction progress s).position
        = s.position + dt * speed * direction * mul
    ∧ (∀ sinpi, animSkillStep sin sinpi dt speed .WalkForward direction progress s
        = some (walk sin 1 dt speed direction progress s, direction))
    ∧ (∀ sinpi, animSkillStep sin sinpi dt speed .WalkBackward direction progress s
        = some (walk sin (-(1/2)) dt speed direction progress s, direction))
    ∧ (progress < 9/10 →
        (walk sin mul dt speed direction progress s).legPose i
            = sin (legSign i * (speed * progress * mul))
        ∧ (walk sin mul dt speed direction progress s).armPose i
            = sin (-legSign i * (speed * progress * mul)))
    ∧ (9/10 ≤ progress →
        (walk sin mul dt speed direction progress s).legPose i
            = s.legPose i * (1 - (progress - 9/10) / (1/10))
        ∧ (walk sin mul dt speed direction progress s).armPose i
            = s.armPose i * (1 - (progress - 9/10) / (1/10)))
    ∧ endWindowT (9/10) = 0 ∧ endWindowT 1 = 1 := by
  have h910 : (1 : ℚ) - 1/10 = 9/10 := by norm_num
  refine ⟨?_, fun _ => rfl, fun _ => rfl, ?_, ?_, by norm_num [endWindowT],
    by norm_num [endWindowT]⟩
  · unfold walk
    split <;> rfl
  · intro h
    unfold walk
    rw [if_pos (h910 ▸ h)]
    exact ⟨rfl, rfl⟩
  · intro h
    unfold walk
    rw [if_neg (by rw [h910]; exact not_lt.mpr h)]
    constructor
    · show s.legPose i * (1 - endWindowT progress) = _
      unfold endWindowT
      ring
    · show s.armPose i * (1 - endWindowT progress) = _
      unfold endWindowT
      ring

/-- C6, witness: `walk_kinematics` with the identity as the abstract sine,
`mul = 1, dt = 1/2, speed = 3, facing = 1, progress = 1/2`, leg index 0. -/
theorem walk_kinematics_witness :
    ((1:ℚ)/2 < 9/10)
    ∧ (walk (fun x => x) 1 (1/2) 3 1 (1/2) pose0).legPose 0
        = legSign 0 * (3 * (1/2) * 1) :=
  ⟨by norm_num,
    ((walk_kinematics (fun x => x) 1 (1/2) 3 1 (1/2) pose0 0).2.2.2.1
      (by norm_num)).1⟩

theorem useSkill_reach (skills : List Skill) (dt : ℚ) (k : ℕ) (sk : Skill)
    (hs : skills.get? k = some sk) (hh : isHandled sk = true) :
    ∀ (N : ℕ) (p : ℚ) (sel : Option ℕ), 1 < p + (N + 1) * dt →
      ∃ n, useSkillIter skills dt n (some (k, p), sel) = some (none, none) := by
  have hs' : skills[k]? = some sk := by rwa [List.get?_eq_getElem?] at hs
  intro N
  induction N with
  | zero =>
    intro p sel h
    have hc : 1 < p + dt * animationSpeed := by
      simp only [animationSpeed, mul_one]
      push_cast at h
      linarith
    exact ⟨1, by simp [useSkillIter, useSkillStep, hs', hh, hc]⟩
  | succ N ih =>
    intro p sel h
    by_cases hc : 1 < p + dt * animationSpeed
    · exact ⟨1, by simp [useSkillIter, useSkillStep, hs', hh, hc]⟩
    · have h2 : 1 < (p + dt * animationSpeed) + (N + 1) * dt := by
        simp only [animationSpeed, mul_one]
        push_cast at h ⊢
        ring_nf at h ⊢
        linarith
      obtain ⟨n, hn⟩ := ih (p + dt * animationSpeed) sel h2
      refine ⟨n + 1, ?_⟩
      have hstep : useSkillStep skills dt (some (k, p), sel)
          = some (some (k, p + dt * animationSpeed), sel) := by
        simp [useSkillStep, hs', hh, hc]
      simp only [useSkillIter, hstep]
      exact hn

/-- C3: the skill-execution machine starts Idle; selecting a skill index `j`
while Idle yields `Active(j, 0)` without clearing the selection; an Active
tick adds `dt * 1.0` to the progress, and in the same tick the incremented
progress exceeds `1.0` the machine returns to Idle with the selection
cleared; consequently, for any selected skill whose variant the engine
handles (walks, turn-around, and the melee case) and any positive tick time,
iterated stepping from `Active(k, 0)` always reaches Idle with the selection
cleared. -/
theorem useSkill_machine (skills : List Skill) (dt : ℚ) (k j : ℕ) (sk : Skill)
    (hs : skills.get? k = some sk) (hh : isHandled sk = true) (hdt : 0 < dt) :
    useSkillStep skills dt (none, some j) = some (some (j, 0), some j)
    ∧ (∀ p sel, p + dt ≤ 1 →
        useSkillStep skills dt (some (k, p), sel) = some (some (k, p + dt), sel))
    ∧ (∀ p sel, 1 < p + dt →
        useSkillStep skills dt (some (k, p), sel) = some (none, none))
    ∧ (∀ sel, ∃ n, useSkillIter skills dt n (some (k, 0), sel) = some (none, none)) := by
  have hs' : skills[k]? = some sk := by rwa [List.get?_eq_getElem?] at hs
  refine ⟨rfl, ?_, ?_, ?_⟩
  · intro p sel h
    have hc : ¬ 1 < p + dt := not_lt.mpr h
    simp [useSkillStep, hs', hh, animationSpeed, hc]
  · intro p sel h
    simp [useSkillStep, hs', hh, animationSpeed, h]
  · intro sel
    obtain ⟨N, hN⟩ := exists_nat_gt (1/dt)
    have h1 : 1 < (N : ℚ) * dt := by rwa [div_lt_iff₀ hdt] at hN
    refine useSkill_reach skills dt k sk hs hh N 0 sel ?_
    nlinarith [h1, hdt]

/-- C3, witness: `useSkill_machine` on the one-element melee skill list with
`dt = 1`: stepping the selected melee skill from `Active(0, 0)` reaches Idle
with the selection cleared. -/
theorem useSkill_machine_witness :
    ([Skill.BasicMelee (jab 0)].get? 0 = some (Skill.BasicMelee (jab 0)))
    ∧ isHandled (Skill.BasicMelee (jab 0)) = true
    ∧ (0:ℚ) < 1
    ∧ ∃ n, useSkillIter [Skill.BasicMelee (jab 0)] 1 n (some (0, 0), some 0)
        = some (none, none) :=
  ⟨rfl, rfl, by norm_num,
    (useSkill_machine [Skill.BasicMelee (jab 0)] 1 0 0 (Skill.BasicMelee (jab 0))
      rfl rfl (by norm_num)).2.2.2 (some 0)⟩

/-- C7: every `PartStats` produced by `randomize_part` satisfies
`weight = size * density` with `density = material.density * factor` for a
factor inside the supplied density range, has `size ∈ [0.5, 2.0]`, and its
material is one of the 7 randomizable catalog entries — never the default
`Rust`. -/
theorem randomize_part_spec (pow03 sqrtQ : ℚ → ℚ) (skills : List Skill)
    (dLo dHi hpMul energyMul sizeDraw : ℚ) (matIdx : Fin 7)
    (densityDraw hpDraw energyDraw d1 d2 d3 : ℚ)
    (hsize : 1/2 ≤ sizeDraw ∧ sizeDraw ≤ 2)
    (hdens : dLo ≤ densityDraw ∧ densityDraw ≤ dHi) :
    (∃ f, dLo ≤ f ∧ f ≤ dHi
      ∧ (randomizePart pow03 sqrtQ skills hpMul energyMul sizeDraw matIdx
          densityDraw hpDraw energyDraw d1 d2 d3).weight
        = (randomizePart pow03 sqrtQ skills hpMul energyMul sizeDraw matIdx
            densityDraw hpDraw energyDraw d1 d2 d3).size
          * (Material.density ((randomizePart pow03 sqrtQ skills hpMul energyMul
              sizeDraw matIdx densityDraw hpDraw energyDraw d1 d2 d3).material) * f))
    ∧ 1/2 ≤ (randomizePart pow03 sqrtQ skills hpMul energyMul sizeDraw matIdx
        densityDraw hpDraw energyDraw d1 d2 d3).size
    ∧ (randomizePart pow03 sqrtQ skills hpMul energyMul sizeDraw matIdx
        densityDraw hpDraw energyDraw d1 d2 d3).size ≤ 2
    ∧ (randomizePart pow03 sqrtQ skills hpMul energyMul sizeDraw matIdx
        densityDraw hpDraw energyDraw d1 d2 d3).material ∈ materialALL
    ∧ (randomizePart pow03 sqrtQ skills hpMul energyMul sizeDraw matIdx
        densityDraw hpDraw energyDraw d1 d2 d3).material ≠ Material.Rust := by
  have hmat : ∀ i : Fin 7, materialChoose i ∈ materialALL
      ∧ materialChoose i ≠ Material.Rust := by decide
  exact ⟨⟨densityDraw, hdens.1, hdens.2, rfl⟩, hsize.1, hsize.2,
    (hmat matIdx).1, (hmat matIdx).2⟩

/-- C7, witness: `randomize_part_spec` with identity shaping functions,
`size = 1`, material index 0 and density factor `4/5` inside `[3/5, 1]`. -/
theorem randomize_part_spec_witness :
    ((1:ℚ)/2 ≤ 1 ∧ (1:ℚ) ≤ 2) ∧ ((3:ℚ)/5 ≤ 4/5 ∧ (4:ℚ)/5 ≤ 1)
    ∧ (randomizePart (fun x => x) (fun x => x) [] (1/10) (3/10) 1 0
        (4/5) 1 1 0 0 0).material ≠ Material.Rust :=
  ⟨⟨by norm_num, by norm_num⟩, ⟨by norm_num, by norm_num⟩,
    (randomize_part_spec (fun x => x) (fun x => x) [] (3/5) 1 (1/10) (3/10) 1 0
      (4/5) 1 1 0 0 0 ⟨by norm_num, by norm_num⟩
      ⟨by norm_num, by norm_num⟩).2.2.2.2⟩

/-- C8: after every stats aggregation triggered by a Body change, the current
health equals the freshly computed `max_health` and the current energy equals
the freshly computed `max_energy` — every Body change is a full heal. -/
theorem full_heal :
    ∀ b : Body, (computeStats b).health = (computeStats b).max_health
      ∧ (computeStats b).energy = (computeStats b).max_energy :=
  fun _ => ⟨rfl, rfl⟩

/-- C5: the stats fold starts from defaults except `speed = +∞` (`none`) and
`max_energy = 100`; each part adds health, energy, weight and skills; legs
take the minimum for speed and sum jump force; the head takes maxima for the
accuracies and the minimum for reaction time; and on the fixed default body
the aggregate has `speed = 5` and `max_health = 24`. -/
theorem stats_aggregation :
    initStats.speed = none ∧ initStats.max_energy = 100 ∧ initStats.max_health = 0
    ∧ (∀ s p, (addPartStats s p).max_health = s.max_health + p.health
        ∧ (addPartStats s p).max_energy = s.max_energy + p.energy
        ∧ (addPartStats s p).weight = s.weight + p.weight
        ∧ (addPartStats s p).skills = s.skills ++ p.skills)
    ∧ (∀ m s, (addLegMeta m s).speed = minInf m.max_speed s.speed
        ∧ (addLegMeta m s).jump_force = s.jump_force + m.jump_force)
    ∧ (∀ m s, (addHeadMeta m s).close_accuracy = max m.close_vision s.close_accuracy
        ∧ (addHeadMeta m s).far_accuracy = max m.far_vision s.far_accuracy
        ∧ (addHeadMeta m s).reaction_time = min m.refresh_rate s.reaction_time)
    ∧ (computeStats defaultBody).speed = some 5
    ∧ (computeStats defaultBody).max_health = 24 := by
  refine ⟨rfl, rfl, rfl, fun s p => ⟨rfl, rfl, rfl, rfl⟩, fun m s => ⟨rfl, rfl⟩,
    fun m s => ⟨rfl, rfl, rfl⟩, ?_, ?_⟩
  · show minInf 5 (minInf 5 none) = some 5
    norm_num [minInf]
  · show (0 : ℚ) + 10 + 2 + 5 + 5 + 1 + 1 = 24
    norm_num

/-- C10: the fixed default body's aggregated, sorted, deduplicated skill list
is exactly `[WalkBackward, WalkForward, BasicMelee, BasicMelee]` (the two Jab
abilities of arms 0 and 1), contains no `TurnAround` — whereas every randomly
generated leg always grants `TurnAround`. -/
theorem default_body_skills :
    (computeStats defaultBody).skills =
      [Skill.WalkBackward, Skill.WalkForward,
        Skill.BasicMelee (jab 0), Skill.BasicMelee (jab 1)]
    ∧ Skill.TurnAround ∉ (computeStats defaultBody).skills
    ∧ ∀ b : Bool, Skill.TurnAround ∈ randomLegSkills b := by
  have h1 : (computeStats defaultBody).skills =
      [Skill.WalkBackward, Skill.WalkForward,
        Skill.BasicMelee (jab 0), Skill.BasicMelee (jab 1)] := rfl
  refine ⟨h1, ?_, ?_⟩
  · rw [h1]
    simp
  · intro b
    cases b <;> simp [randomLegSkills]

/-- C9: a step reaching a `BasicRanged` or `Scan` variant aborts (`none`)
on every input — never a silent no-op — and a skill step succeeds exactly on
the handled variants; the UI's image lookup likewise aborts on these
variants. -/
theorem unimplemented_abort :
    (∀ sin sinpi dt speed a direction progress s,
        animSkillStep sin sinpi dt speed (.BasicRanged a) direction progress s = none)
    ∧ (∀ sin sinpi dt speed a direction progress s,
        animSkillStep sin sinpi dt speed (.Scan a) direction progress s = none)
    ∧ (∀ sin sinpi dt speed sk direction progress s,
        (animSkillStep sin sinpi dt speed sk direction progress s).isSome = isHandled sk)
    ∧ (∀ a, skillImage (.BasicRanged a) = none ∧ skillImage (.Scan a) = none) := by
  refine ⟨fun _ _ _ _ _ _ _ _ => rfl, fun _ _ _ _ _ _ _ _ => rfl, ?_, fun a => ⟨rfl, rfl⟩⟩
  intro _ _ _ _ sk _ _ _
  cases sk <;> rfl

end Combine
